import Mathlib

/-!
Verification of the rocrate-indexer core against its specification.

The Rust sources are shallowly embedded: Rust `&str` / `String` values are
modelled as `List Char` (`Str`), `serde_json::Value` as the inductive `Json`,
and the stateful `CrateIndex` facade as a pure state-passing function over an
explicit `IndexState`, with all I/O (the loader, the zip scanner, the file
system, the ULID generator, the crate-id hash) supplied by an `Env` oracle.
The full-text search engine (tantivy) is external to the spec; its documents
are modelled as a list of `Doc` records, term queries as filters and the
top-docs collector as a prefix-take over the score-ordered match list.
-/

namespace RocrateIndexer

/-- Rust strings, modelled as lists of characters. -/
abbrev Str := List Char

/-- Conversion from Lean string literals to the `Str` model. -/
def str (s : String) : Str := s.data

/-- Rust `str::starts_with(pat)` for a string pattern: `hasPre p s` is true
iff `p` is a prefix of `s`. -/
def hasPre (p s : Str) : Bool :=
  match p, s with
  | [], _ => true
  | _ :: _, [] => false
  | a :: p', b :: s' => if a = b then hasPre p' s' else false

/-- Rust `str::ends_with(pat)` for a string pattern. -/
def hasSuf (p s : Str) : Bool := hasPre p.reverse s.reverse

/-- Drop all leading occurrences of the character `c`
(Rust `str::trim_start_matches(c)`). -/
def dropLeading (c : Char) : Str → Str
  | [] => []
  | a :: t => if a = c then dropLeading c t else a :: t

/-- Drop all leading characters different from `c`
(Rust `str::trim_start_matches(|ch| ch != c)`). -/
def dropLeadingNe (c : Char) : Str → Str
  | [] => []
  | a :: t => if a = c then a :: t else dropLeadingNe c t

/-- Rust `str::trim_end_matches(c)`: drop all trailing occurrences of `c`. -/
def rtrimChar (c : Char) (s : Str) : Str := (dropLeading c s.reverse).reverse

/-- Rust `str::trim_end_matches(|ch| ch != c)`: drop all trailing characters
different from `c`. -/
def rtrimNe (c : Char) (s : Str) : Str := (dropLeadingNe c s.reverse).reverse

/-- Rust `str::trim_matches(c)`: drop occurrences of `c` at both ends. -/
def trimChar (c : Char) (s : Str) : Str := rtrimChar c (dropLeading c s)

/-- Split a list at the first occurrence of `c`: if `l = a ++ c :: b` with `c`
not in `a`, the result is `some (a, b)`; `none` when `c` does not occur. -/
def breakAtFirst (c : Char) : Str → Option (Str × Str)
  | [] => none
  | a :: t =>
    if a = c then some ([], t)
    else
      match breakAtFirst c t with
      | some (x, y) => some (a :: x, y)
      | none => none

/-- Rust `str::rfind(c)` followed by the split `(s[..pos], s[pos+1..])`:
split at the last occurrence of `c`, as in Rust `str::rsplit_once(c)`. -/
def rsplitOnce (c : Char) (s : Str) : Option (Str × Str) :=
  (breakAtFirst c s.reverse).map (fun p => (p.2.reverse, p.1.reverse))

/-- One fuel-indexed stripping pass for `str::trim_start_matches(pat)`. A
matching step strips at least one character, so `s.length` steps always
suffice; the fuel only makes the recursion structural. -/
def trimStartStrGo (pat : Str) : Nat → Str → Str
  | 0, s => s
  | fuel + 1, s =>
    if pat ≠ [] ∧ hasPre pat s = true then
      trimStartStrGo pat fuel (s.drop pat.length)
    else s

/-- Rust `str::trim_start_matches(pat)` for a string pattern: repeatedly
strip the prefix `pat` while it matches. -/
def trimStartStr (pat s : Str) : Str := trimStartStrGo pat s.length s

/-- One fuel-indexed stripping pass for `str::trim_end_matches(pat)`,
analogous to `trimStartStrGo`. -/
def trimEndStrGo (pat : Str) : Nat → Str → Str
  | 0, s => s
  | fuel + 1, s =>
    if pat ≠ [] ∧ hasSuf pat s = true then
      trimEndStrGo pat fuel (s.take (s.length - pat.length))
    else s

/-- Rust `str::trim_end_matches(pat)` for a string pattern: repeatedly strip
the suffix `pat` while it matches. -/
def trimEndStr (pat s : Str) : Str := trimEndStrGo pat s.length s

/-! ## JSON model (`serde_json::Value`)

Numeric payloads are carried as `Int`; no claim inspects a number, and the
floating-point width of `serde_json` numbers is irrelevant to the indexed
properties. Objects are association lists in insertion order. -/

inductive Json where
  | null : Json
  | bool (b : Bool) : Json
  | num (n : Int) : Json
  | jstr (s : Str) : Json
  | arr (l : List Json) : Json
  | obj (l : List (Str × Json)) : Json

instance : Inhabited Json := ⟨Json.null⟩

/-- Association-list lookup used for `serde_json::Value::get(key)` on
objects. -/
def assocFind (k : Str) : List (Str × Json) → Option Json
  | [] => none
  | (k', v) :: t => if k' = k then some v else assocFind k t

/-- `serde_json::Value::get(key)`: field lookup, `none` on non-objects. -/
def jget (k : Str) : Json → Option Json
  | .obj l => assocFind k l
  | _ => none

/-- `Value::as_str()`. -/
def Json.asStr : Json → Option Str
  | .jstr s => some s
  | _ => none

/-! ## extract.rs -/

/-- `TEXT_FIELDS` from extract.rs. -/
def TEXT_FIELDS : List Str :=
  [str ("name"), str ("description"), str ("alternateName"), str ("keywords"),
   str ("abstract"), str ("text"), str ("headline"), str ("about")]

/-- `PERSON_FIELDS` from extract.rs. -/
def PERSON_FIELDS : List Str :=
  [str ("author"), str ("creator"), str ("contributor"), str ("publisher")]

/-- `ROCRATE_PROFILE_PREFIX` from extract.rs (note: no trailing slash). -/
def ROCRATE_PROFILE_PREFIX : Str := str ("https://w3id.org/ro/crate")

/-- `collect_strings` from extract.rs: push strings, recurse into arrays. -/
def collect_strings : Json → List Str
  | .jstr s => [s]
  | .arr l => collectStringsList l
  | _ => []
where
  collectStringsList : List Json → List Str
  | [] => []
  | v :: t => collect_strings v ++ collectStringsList t

/-- `collect_names` from extract.rs: push the `name` string of objects,
recurse into arrays. -/
def collect_names : Json → List Str
  | .obj m =>
    match assocFind (str ("name")) m with
    | some (.jstr s) => [s]
    | _ => []
  | .arr l => collectNamesList l
  | _ => []
where
  collectNamesList : List Json → List Str
  | [] => []
  | v :: t => collect_names v ++ collectNamesList t

/-- Interleave a separator between list elements (Rust `Vec::join(" ")`,
producing a flat character list). -/
def joinSep (sep : Str) : List Str → Str
  | [] => []
  | [x] => x
  | x :: t => x ++ sep ++ joinSep sep t

/-- `extract_text` from extract.rs: space-joined strings of the eight text
fields followed by person names of the four person fields. -/
def extract_text (entity : Json) : Str :=
  let parts :=
    (TEXT_FIELDS.foldr (fun f acc =>
      (match jget f entity with
       | some v => collect_strings v
       | none => []) ++ acc) [])
    ++
    (PERSON_FIELDS.foldr (fun f acc =>
      (match jget f entity with
       | some v => collect_names v
       | none => []) ++ acc) [])
  joinSep (str (" ")) parts

/-- `extract_types` from extract.rs. -/
def extract_types (entity : Json) : List Str :=
  match jget (str ("@type")) entity with
  | some (.jstr t) => [t]
  | some (.arr l) => l.filterMap Json.asStr
  | _ => []

/-- `extract_id` from extract.rs. -/
def extract_id (entity : Json) : Option Str :=
  (jget (str ("@id")) entity).bind Json.asStr

/-- The `check_id` closure of `conforms_to_rocrate`: does the value carry an
`@id` string starting with the profile prefix? -/
def checkConformsId (v : Json) : Bool :=
  match (jget (str ("@id")) v).bind Json.asStr with
  | some id => hasPre ROCRATE_PROFILE_PREFIX id
  | none => false

/-- `conforms_to_rocrate` from extract.rs. -/
def conforms_to_rocrate (entity : Json) : Bool :=
  match jget (str ("conformsTo")) entity with
  | none => false
  | some c =>
    match c with
    | .obj _ => checkConformsId c
    | .arr l => l.any checkConformsId
    | .jstr s => hasPre ROCRATE_PROFILE_PREFIX s
    | _ => false

/-- First index at which `pat` occurs as a contiguous substring
(Rust `str::find(pat)`). -/
def findSubstr (pat : Str) : Str → Option Nat
  | [] => if pat = [] then some 0 else none
  | a :: t =>
    if hasPre pat (a :: t) then some 0 else (findSubstr pat t).map (· + 1)

/-- Rust `str::contains(pat)` for a string pattern. -/
def containsStr (pat s : Str) : Bool := (findSubstr pat s).isSome

/-- `extract_subject_of_url` from extract.rs. -/
def extract_subject_of_url (entity : Json) : Option Str :=
  match jget (str ("subjectOf")) entity with
  | none => none
  | some so =>
    match so with
    | .obj _ => (jget (str ("@id")) so).bind Json.asStr
    | .arr l =>
      match l.find? (fun item =>
        match (jget (str ("@id")) item).bind Json.asStr with
        | some id =>
          containsStr (str ("ro-crate-metadata")) id || hasSuf (str (".json")) id
        | none => false) with
      | some item => (jget (str ("@id")) item).bind Json.asStr
      | none => l.head?.bind (fun item => (jget (str ("@id")) item).bind Json.asStr)
    | .jstr s => some s
    | _ => none

/-- `find_root_entity` from extract.rs. -/
def find_root_entity (entities : List Json) : Option Json :=
  match entities.find? (fun e =>
    extract_id e == some (str ("./")) &&
      (extract_types e).any (fun t => t == str ("Dataset"))) with
  | some e => some e
  | none =>
    entities.find? (fun e =>
      (extract_types e).any (fun t => t == str ("Dataset")) &&
      conforms_to_rocrate e &&
      (let id := (extract_id e).getD []
       if id ≠ str ("./") ∧ id ≠ [] then
         match extract_subject_of_url e with
         | some so =>
           hasPre (str ("ro-crate-metadata")) so ||
             hasSuf (str ("ro-crate-metadata.json")) so
         | none => true
       else true))

/-- `clean_name` from extract.rs: trim ASCII whitespace, strip one leading
`./`. -/
def clean_name (name : Str) : Str :=
  let t := (List.dropWhile Char.isWhitespace
    ((List.dropWhile Char.isWhitespace name.reverse).reverse))
  if hasPre (str ("./")) t then t.drop 2 else t

/-- `RootMetadata` from extract.rs. -/
structure RootMetadata where
  name : Option Str
  description : Option Str
deriving Repr, DecidableEq

/-- `extract_root_metadata` from extract.rs. -/
def extract_root_metadata (entities : List Json) : RootMetadata :=
  match find_root_entity entities with
  | none => ⟨none, none⟩
  | some root =>
    ⟨((jget (str ("name")) root).bind Json.asStr).map clean_name,
     (jget (str ("description")) root).bind Json.asStr⟩

/-- `find_potential_subcrates` from extract.rs: conforming Datasets with an
`@id` other than `./`. -/
def find_potential_subcrates (entities : List Json) : List Str :=
  entities.foldr (fun e acc =>
    if (extract_types e).any (fun t => t == str ("Dataset")) &&
        conforms_to_rocrate e then
      match extract_id e with
      | some id => if id = str ("./") then acc else id :: acc
      | none => acc
    else acc) []

/-- `get_subcrate_entity_ids` from extract.rs. -/
def get_subcrate_entity_ids (entities : List Json) : List Str :=
  find_potential_subcrates entities

/-- `resolve_url` from extract.rs. -/
def resolve_url (url : Str) (base? : Option Str) : Str :=
  if hasPre (str ("http://")) url || hasPre (str ("https://")) url then url
  else
    match base? with
    | none => url
    | some b =>
      let base := rtrimChar '/' b
      if hasPre (str ("./")) url then base ++ str ("/") ++ url.drop 2
      else if hasPre (str ("/")) url then
        match findSubstr (str ("://")) base with
        | some idx =>
          match (base.drop (idx + 3)).findIdx? (fun c => c == '/') with
          | some e => base.take (idx + 3 + e) ++ url
          | none => base ++ url
        | none => base ++ url
      else base ++ str ("/") ++ url

/-- `SubcrateInfo` from extract.rs. -/
structure SubcrateInfo where
  entity_id : Str
  metadata_url : Str
  is_relative : Bool
deriving Repr, DecidableEq

/-- `detect_subcrates_from_url` from extract.rs. -/
def detect_subcrates_from_url (entities : List Json) (baseUrl : Option Str) :
    List SubcrateInfo :=
  entities.foldr (fun e acc =>
    if (extract_types e).any (fun t => t == str ("Dataset")) &&
        conforms_to_rocrate e then
      match extract_id e with
      | none => acc
      | some entityId =>
        if entityId = str ("./") then acc
        else
          let metadataUrl :=
            match extract_subject_of_url e with
            | some so => so
            | none => rtrimChar '/' entityId ++ str ("/ro-crate-metadata.json")
          let isRel := !(hasPre (str ("http://")) metadataUrl ||
            hasPre (str ("https://")) metadataUrl)
          let resolved := if isRel then resolve_url metadataUrl baseUrl
            else metadataUrl
          ⟨entityId, resolved, isRel⟩ :: acc
    else acc) []

/-- `resolve_id` from extract.rs. -/
def resolve_id (entityId crateBase : Str) : Str :=
  if hasPre (str ("http://")) entityId || hasPre (str ("https://")) entityId then
    entityId
  else
    let base := rtrimChar '/' crateBase
    if entityId = str ("./") then base
    else if hasPre (str ("./")) entityId then
      base ++ str ("/") ++ entityId.drop 2
    else if hasPre (str ("#")) entityId then crateBase ++ entityId
    else base ++ str ("/") ++ entityId

/-! ## loader.rs -/

/-- `CrateSource` from loader.rs. Paths are carried as strings. -/
inductive CrateSource where
  | Directory (path : Str)
  | ZipFile (path : Str)
  | Url (url : Str)
  | ZipSubcrate (parent_id : Str) (zip_path : Str) (subpath : Str)
  | UrlSubcrate (parent_id : Str) (metadata_url : Str)
deriving Repr, DecidableEq

/-- `normalize_url_for_id` from loader.rs: trim trailing slashes, then drop a
trailing `ro-crate-metadata.json` segment at the last `/`. -/
def normalize_url_for_id (url : Str) : Str :=
  let u := rtrimChar '/' url
  if hasSuf (str ("ro-crate-metadata.json")) u then
    match rsplitOnce '/' u with
    | some (before, _) => before
    | none => u
  else u

/-- `Path::file_name` of a path string: the part after the last `/` (the
simplified form sufficient for the paths exercised here). -/
def pathFileName (p : Str) : Str :=
  match rsplitOnce '/' p with
  | some (_, aft) => aft
  | none => p

/-- `Path::file_stem` of a path string: the file name with a final extension
stripped at the last dot. -/
def pathFileStem (p : Str) : Str :=
  let n := pathFileName p
  match rsplitOnce '.' n with
  | some ([], _) => n
  | some (bef, _) => bef
  | none => n

/-- `CrateSource::to_crate_id` from loader.rs. The fresh ULID produced by
`Ulid::new()` (consulted only for the local `Directory` / `ZipFile` variants)
is passed in explicitly as `fresh`. -/
def CrateSource.to_crate_id (fresh : Str) : CrateSource → Str
  | .Url u => normalize_url_for_id u
  | .Directory p => fresh ++ str ("/") ++ pathFileName p
  | .ZipFile p => fresh ++ str ("/") ++ pathFileStem p
  | .ZipSubcrate parentId _ subpath =>
    let clean := trimEndStr (str ("/ro-crate-metadata.json")) (trimChar '/' subpath)
    let clean :=
      match rsplitOnce '/' clean with
      | some (bef, _) => bef
      | none => clean
    parentId ++ str ("/") ++ clean
  | .UrlSubcrate _ metadataUrl => normalize_url_for_id metadataUrl

/-- Whether `to_crate_id` consults `Ulid::new()` for this variant. -/
def CrateSource.usesUlid : CrateSource → Bool
  | .Directory _ => true
  | .ZipFile _ => true
  | _ => false

/-- `CrateSource::base_url` from loader.rs: everything up to and including
the last `/` of the normalized URL (resp. of the subcrate metadata URL). -/
def CrateSource.base_url : CrateSource → Option Str
  | .Url u =>
    let normalized := normalize_url_for_id u
    match rsplitOnce '/' normalized with
    | some (bef, _) => some (bef ++ str ("/"))
    | none => some (normalized ++ str ("/"))
  | .UrlSubcrate _ metadataUrl =>
    match rsplitOnce '/' metadataUrl with
    | some (bef, _) => some (bef ++ str ("/"))
    | none => some (metadataUrl ++ str ("/"))
  | _ => none

/-- `CrateSource::zip_path` from loader.rs. -/
def CrateSource.zipPath : CrateSource → Option Str
  | .ZipFile p => some p
  | .ZipSubcrate _ zp _ => some zp
  | _ => none

/-- The pure matching logic of `find_subcrate_metadata_in_zip` from loader.rs,
over the archive's entry-name list: collect entries ending
`ro-crate-metadata.json`, then map each entity id (with leading `./` and
trailing `/` trimmed) to the first entry whose containing directory equals it
or suffix-matches `/<id>`. -/
def find_subcrate_matches (entries : List Str) (entityIds : List Str) :
    List (Str × Str) :=
  let metadataEntries := entries.filter
    (fun n => hasSuf (str ("ro-crate-metadata.json")) n)
  entityIds.foldr (fun entityId acc =>
    let normalized := rtrimChar '/' (trimStartStr (str ("./")) entityId)
    match metadataEntries.find? (fun entry =>
      let entryDir := rtrimChar '/' (rtrimNe '/' entry)
      entryDir == normalized || hasSuf (str ("/") ++ normalized) entryDir) with
    | some entry => (entityId, entry) :: acc
    | none => acc) []

/-! ## config.rs -/

/-- `CrateEntry` from config.rs. -/
structure CrateEntry where
  crate_id : Str
  full_path : List Str
  name : Option Str
  description : Option Str
deriving Repr, DecidableEq

/-- `CrateEntry::new` from config.rs: a root-level entry, name and
description unset. -/
def CrateEntry.new (crateId : Str) : CrateEntry :=
  ⟨crateId, [crateId], none, none⟩

/-- The manifest's `HashMap<String, CrateEntry>`, modelled as an association
list keyed by `crate_id` (insertion replaces an existing key). -/
abbrev Manifest := List CrateEntry

/-- `Manifest::contains` from config.rs. -/
def Manifest.containsId (m : Manifest) (crateId : Str) : Bool :=
  m.any (fun e => e.crate_id == crateId)

/-- `Manifest::add_crate` from config.rs: `HashMap::insert` keyed by the
entry's `crate_id` (replace when present, append when absent). -/
def Manifest.addCrate (m : Manifest) (entry : CrateEntry) : Manifest :=
  if m.containsId entry.crate_id then
    m.map (fun e => if e.crate_id == entry.crate_id then entry else e)
  else m ++ [entry]

/-- `Manifest::remove_crate` from config.rs. -/
def Manifest.removeCrate (m : Manifest) (crateId : Str) : Manifest :=
  m.filter (fun e => !(e.crate_id == crateId))

/-- `Manifest::get` from config.rs. -/
def Manifest.getEntry (m : Manifest) (crateId : Str) : Option CrateEntry :=
  m.find? (fun e => e.crate_id == crateId)

/-! ## index.rs -/

/-- One FTS document, per the schema of index.rs: resolved entity id, the
crate it occurs in (the deletion key), one posting per `@type`, the
concatenated text content (absent when empty), and the entity JSON. -/
structure Doc where
  id : Str
  occurs_in : Str
  entity_type : List Str
  content : Option Str
  properties : Json

/-- `SearchIndex::index_entities` from index.rs, as the list of documents
emitted for a crate: one document per entity having an `@id` (entities
without `@id` are skipped); the returned count is the number of documents. -/
def index_entities (crateId : Str) (entities : List Json) : List Doc :=
  entities.foldr (fun entity acc =>
    match extract_id entity with
    | none => acc
    | some entityId =>
      let resolvedId := resolve_id entityId crateId
      let types := extract_types entity
      let content := extract_text entity
      { id := resolvedId
        occurs_in := crateId
        entity_type := types
        content := if content = [] then none else some content
        properties := entity } :: acc) []

/-- `SearchIndex::remove_crate` from index.rs: delete by term
`occurs_in == crate_id`, applied to the live-document list. -/
def remove_crate_docs (fts : List Doc) (crateId : Str) : List Doc :=
  fts.filter (fun d => !(d.occurs_in == crateId))

/-! ## query.rs -/

/-- `SearchHit` from query.rs (the `f32` score is not modelled; hits keep the
score order of the underlying top-docs list). -/
structure SearchHit where
  entity_id : Str
  crate_id : Str
deriving Repr, DecidableEq

/-- The hit a document is collected into (`collect_hits` of query.rs). -/
def Doc.toHit (d : Doc) : SearchHit := ⟨d.id, d.occurs_in⟩

/-- `QueryEngine::search_by_id` from query.rs: an exact term query on the
`id` field collected through `TopDocs::with_limit(1000)`. The FTS engine is
external: a term query returns the documents whose `id` field equals the
term, in score order (here: index order), and the collector keeps at most
its limit of them. -/
def search_by_id (fts : List Doc) (entityId : Str) : List SearchHit :=
  ((fts.filter (fun d => d.id == entityId)).take 1000).map Doc.toHit

/-- `QueryEngine::find_crates_by_entity` from query.rs: the distinct crate
ids of the `search_by_id` hits (`HashSet` modelled as a deduplicated list). -/
def find_crates_by_entity (fts : List Doc) (entityId : Str) : List Str :=
  ((search_by_id fts entityId).map SearchHit.crate_id).dedup

/-- `KNOWN_FIELDS` from query.rs. -/
def KNOWN_FIELDS : List Str :=
  [str ("id"), str ("occurs_in"), str ("entity_type"), str ("content"),
   str ("properties")]

/-- The length of the quoted-string run copied verbatim by the `"` branch of
`preprocess_query`: characters up to and including the closing quote, with a
backslash consuming the following character as an escape pair. -/
def quotedLen : Str → Nat
  | [] => 0
  | c :: rest =>
    if c = '"' then 1
    else if c = '\\' then
      match rest with
      | [] => 1
      | _ :: rest2 => 2 + quotedLen rest2
    else 1 + quotedLen rest

/-- The quoted-string branch of `preprocess_query`: the characters after the
opening quote are copied verbatim through the closing quote; the result is
the copied run and the remaining input. -/
def copyQuoted (s : Str) : Str × Str := (s.take (quotedLen s), s.drop (quotedLen s))

/-- Rust `char::is_alphabetic` / `char::is_alphanumeric` are the Unicode
classes; the embedding uses the ASCII classifiers, which agree with them on
all ASCII inputs (every input exercised by the claims is ASCII). -/
def isWordStart (c : Char) : Bool := c.isAlpha || c = '_' || c = '@'

/-- Characters continuing a potential field name in `preprocess_query`. -/
def isWordCont (c : Char) : Bool := c.isAlphanum || c = '_' || c = '.' || c = '@'

/-- `QueryEngine::preprocess_query` from query.rs: prefix unknown
`field:`-style roots with `properties.`; quoted strings, known fields and
plain terms are copied unchanged. -/
def preprocessGo : Nat → Str → Str
  | 0, _ => []
  | _ + 1, [] => []
  | fuel + 1, c :: rest =>
      if c = '"' then
        c :: (rest.take (quotedLen rest) ++ preprocessGo fuel (rest.drop (quotedLen rest)))
      else if isWordStart c then
        let w := rest.takeWhile isWordCont
        let r := rest.dropWhile isWordCont
        let word := c :: w
        if r.head? = some ':' then
          let fieldRoot := word.takeWhile (fun x => !(x == '.'))
          if KNOWN_FIELDS.any (fun f => f == fieldRoot) then
            word ++ ':' :: preprocessGo fuel (r.drop 1)
          else
            str ("properties.") ++ word ++ ':' :: preprocessGo fuel (r.drop 1)
        else word ++ preprocessGo fuel r
      else c :: preprocessGo fuel rest

/-- `QueryEngine::preprocess_query` from query.rs (see `preprocessGo`). Each
loop step consumes at least one input character, so `s.length` fuel always
suffices; the fuel only makes the recursion structural. -/
def preprocess_query (s : Str) : Str := preprocessGo s.length s

/-! ## error.rs and lib.rs state

The facade's effects are made explicit: `IndexState` holds the manifest, the
in-memory store, the live FTS documents and the metadata files on disk;
`Env` supplies everything the Rust code obtains from the outside world (the
loader's I/O, the zip directory listing, the file system probes, fresh
ULIDs, and the `DefaultHasher`-based crate-id digest). Recursion through
subcrate discovery is not structurally terminating in the source (it stops
only via the manifest-as-visited-set and the finiteness of reachable
crates), so every embedded function consumes explicit fuel; exhausted fuel
surfaces as the artificial `fuelExhausted` error, which no claim's run
reaches. -/

inductive IndexError where
  | invalidPath (path : Str)
  | loadError (path reason : Str)
  | invalidCrateFormat (msg : Str)
  | crateNotFound (id : Str)
  | io
  | json
  | fuelExhausted
deriving Repr, DecidableEq

/-- The parsed crate as far as the facade inspects it: `graph_to_json`
serializes only the `graph` field, so the model carries that serialized
value directly. -/
structure RoCrate where
  graph : Json

/-- `AddResult` from lib.rs. -/
inductive AddResult where
  | mk (crate_id : Str) (entity_count : Nat) (subcrates : List AddResult)

/-- The crate id of an `AddResult`. -/
def AddResult.crateId : AddResult → Str
  | .mk c _ _ => c

/-- The entity count of an `AddResult`. -/
def AddResult.entityCount : AddResult → Nat
  | .mk _ n _ => n

/-- The subcrate results of an `AddResult`. -/
def AddResult.subs : AddResult → List AddResult
  | .mk _ _ s => s

/-- Association-list lookup keyed by `Str` (for the store and the disk). -/
def lookupA {α : Type} (k : Str) : List (Str × α) → Option α
  | [] => none
  | (k', v) :: t => if k' = k then some v else lookupA k t

/-- Association-list insert-or-replace (`HashMap::insert` / `fs::write`). -/
def insertA {α : Type} (k : Str) (v : α) : List (Str × α) → List (Str × α)
  | [] => [(k, v)]
  | (k', v') :: t => if k' = k then (k, v) :: t else (k', v') :: insertA k v t

/-- Association-list removal (`HashMap::remove` / `fs::remove_file`). -/
def eraseA {α : Type} (k : Str) (l : List (Str × α)) : List (Str × α) :=
  l.filter (fun p => !(p.1 == k))

/-- Association-list key membership (`HashMap::contains_key`). -/
def containsA {α : Type} (k : Str) (l : List (Str × α)) : Bool :=
  (lookupA k l).isSome

/-- The mutable state owned by `CrateIndex`: manifest, in-memory store, FTS
documents, and the metadata files on disk (path ↦ raw bytes). `ulidCtr`
indexes the stream of fresh ULIDs supplied by the environment. -/
structure IndexState where
  manifest : Manifest
  store : List (Str × RoCrate)
  fts : List Doc
  disk : List (Str × Str)
  ulidCtr : Nat

/-- The outside world of the facade. -/
structure Env where
  /-- `loader::load_with_json`: resolve a source to (parsed crate, raw JSON). -/
  load : CrateSource → Except IndexError (RoCrate × Str)
  /-- The stream of values produced by successive `Ulid::new()` calls. -/
  ulids : Nat → Str
  /-- `config::hash_crate_id` (`DefaultHasher`, 16 hex chars). -/
  hash : Str → Str
  /-- The entry-name listing of a zip archive, or an I/O error
  (`find_subcrate_metadata_in_zip`'s archive scan). -/
  zipEntries : Str → Except IndexError (List Str)
  /-- `Path::is_dir`. -/
  isDir : Str → Bool
  /-- `find_metadata_in_dir`: does the directory hold a metadata file? -/
  dirHasMetadata : Str → Bool

/-- `Config::metadata_path_for_crate`: `metadata/<hash16>.json`. -/
def metadata_path_for_crate (env : Env) (crateId : Str) : Str :=
  str ("metadata/") ++ env.hash crateId ++ str (".json")

/-- `CrateIndex::graph_to_json`: the serialized `@graph` must be an array. -/
def graph_to_json (crateData : RoCrate) : Except IndexError (List Json) :=
  match crateData.graph with
  | .arr l => .ok l
  | _ => .error (.invalidCrateFormat (str ("Expected @graph to be an array")))

/-- `CrateIndex::index_crate`: remove prior postings when the store already
holds the id (update semantics), then emit one document per entity; returns
the new state and the emitted-document count. -/
def indexCrate (st : IndexState) (crateId : Str) (entities : List Json) :
    IndexState × Nat :=
  let st :=
    if containsA crateId st.store then
      { st with fts := remove_crate_docs st.fts crateId }
    else st
  let docs := index_entities crateId entities
  ({ st with fts := st.fts ++ docs }, docs.length)

/-- Advance the ULID stream when `to_crate_id` consumed a fresh ULID for
this source (`Ulid::new()` is called inside `to_crate_id` for the local
root variants). -/
def bumpUlid (st : IndexState) (source : CrateSource) : IndexState :=
  if source.usesUlid then { st with ulidCtr := st.ulidCtr + 1 } else st

mutual

/-- `CrateIndex::add_from_source` from lib.rs. -/
def addFromSource : Nat → Env → IndexState → CrateSource →
    IndexState × Except IndexError AddResult
  | 0, _, st, _ => (st, .error .fuelExhausted)
  | f + 1, env, st, source =>
    let fresh := env.ulids st.ulidCtr
    let st := bumpUlid st source
    let crateId := source.to_crate_id fresh
    if st.manifest.containsId crateId then
      (st, .ok (.mk crateId 0 []))
    else
      match env.load source with
      | .error e => (st, .error e)
      | .ok (crateData, rawJson) =>
        let st := { st with
          disk := insertA (metadata_path_for_crate env crateId) rawJson st.disk }
        match graph_to_json crateData with
        | .error e => (st, .error e)
        | .ok entities =>
          let entityCount := (indexCrate st crateId entities).2
          let st := (indexCrate st crateId entities).1
          let st := { st with store := insertA crateId crateData st.store }
          let st := { st with manifest := st.manifest.addCrate (CrateEntry.new crateId) }
          match discoverAndAddSubcrates f env st source crateId entities with
          | (st, .error e) => (st, .error e)
          | (st, .ok subcrates) => (st, .ok (.mk crateId entityCount subcrates))

/-- `CrateIndex::discover_and_add_subcrates` from lib.rs. -/
def discoverAndAddSubcrates : Nat → Env → IndexState → CrateSource → Str →
    List Json → IndexState × Except IndexError (List AddResult)
  | 0, _, st, _, _, _ => (st, .error .fuelExhausted)
  | f + 1, env, st, source, parentId, entities =>
    match source with
    | .Url _ | .UrlSubcrate _ _ =>
      let infos := detect_subcrates_from_url entities source.base_url
      addUrlSubcrates f env st parentId infos
    | .ZipFile zipPath | .ZipSubcrate _ zipPath _ =>
      addZipSubcrates f env st parentId zipPath entities
    | .Directory dirPath =>
      addDirectorySubcrates f env st parentId dirPath
        (get_subcrate_entity_ids entities)

/-- `CrateIndex::add_url_subcrates` from lib.rs: relative items are dropped,
already-indexed ids are skipped, and failures of individual subcrates are
swallowed. -/
def addUrlSubcrates : Nat → Env → IndexState → Str → List SubcrateInfo →
    IndexState × Except IndexError (List AddResult)
  | 0, _, st, _, _ => (st, .error .fuelExhausted)
  | _ + 1, _, st, _, [] => (st, .ok [])
  | f + 1, env, st, parentId, info :: rest =>
    if hasPre (str ("http://")) info.metadata_url ||
        hasPre (str ("https://")) info.metadata_url then
      let source := CrateSource.UrlSubcrate parentId info.metadata_url
      let subcrateId := source.to_crate_id (str (""))
      if st.manifest.containsId subcrateId then
        addUrlSubcrates f env st parentId rest
      else
        match addFromSource f env st source with
        | (st, .ok result) =>
          match addUrlSubcrates f env st parentId rest with
          | (st, .ok results) => (st, .ok (result :: results))
          | (st, .error e) => (st, .error e)
        | (st, .error _) => addUrlSubcrates f env st parentId rest
    else addUrlSubcrates f env st parentId rest

/-- `CrateIndex::add_zip_subcrates` from lib.rs. -/
def addZipSubcrates : Nat → Env → IndexState → Str → Str → List Json →
    IndexState × Except IndexError (List AddResult)
  | 0, _, st, _, _, _ => (st, .error .fuelExhausted)
  | f + 1, env, st, parentId, zipPath, entities =>
    let entityIds := get_subcrate_entity_ids entities
    if entityIds.isEmpty then (st, .ok [])
    else
      let urlSubcrates := (detect_subcrates_from_url entities none).filter
        (fun s => !s.is_relative)
      match addUrlSubcrates f env st parentId urlSubcrates with
      | (st, .error e) => (st, .error e)
      | (st, .ok results) =>
        match env.zipEntries zipPath with
        | .error e => (st, .error e)
        | .ok entries =>
          let zipMatches := find_subcrate_matches entries entityIds
          match addZipMatches f env st parentId zipPath zipMatches with
          | (st, .ok more) => (st, .ok (results ++ more))
          | (st, .error e) => (st, .error e)

/-- The per-match loop of `add_zip_subcrates`: already-indexed ids are
skipped and individual failures are swallowed. -/
def addZipMatches : Nat → Env → IndexState → Str → Str → List (Str × Str) →
    IndexState × Except IndexError (List AddResult)
  | 0, _, st, _, _, _ => (st, .error .fuelExhausted)
  | _ + 1, _, st, _, _, [] => (st, .ok [])
  | f + 1, env, st, parentId, zipPath, (_, metadataPath) :: rest =>
    let source := CrateSource.ZipSubcrate parentId zipPath metadataPath
    let subcrateId := source.to_crate_id (str (""))
    if st.manifest.containsId subcrateId then
      addZipMatches f env st parentId zipPath rest
    else
      match addFromSource f env st source with
      | (st, .ok result) =>
        match addZipMatches f env st parentId zipPath rest with
        | (st, .ok results) => (st, .ok (result :: results))
        | (st, .error e) => (st, .error e)
      | (st, .error _) => addZipMatches f env st parentId zipPath rest

/-- `CrateIndex::add_directory_subcrates` from lib.rs, over the potential
subcrate entity ids: probe `<dir>/<normalized-id>` for a directory holding a
metadata file, synthesize the id `<parent_id>/<normalized-id>`, and recurse;
failures are swallowed. -/
def addDirectorySubcrates : Nat → Env → IndexState → Str → Str → List Str →
    IndexState × Except IndexError (List AddResult)
  | 0, _, st, _, _, _ => (st, .error .fuelExhausted)
  | _ + 1, _, st, _, _, [] => (st, .ok [])
  | f + 1, env, st, parentId, dirPath, entityId :: rest =>
    let subpath := rtrimChar '/' (trimStartStr (str ("./")) entityId)
    let subdir := dirPath ++ str ("/") ++ subpath
    if !env.isDir subdir then addDirectorySubcrates f env st parentId dirPath rest
    else if !env.dirHasMetadata subdir then
      addDirectorySubcrates f env st parentId dirPath rest
    else
      let subcrateId := parentId ++ str ("/") ++ subpath
      if st.manifest.containsId subcrateId then
        addDirectorySubcrates f env st parentId dirPath rest
      else
        match addDirectorySubcrate f env st subcrateId subdir with
        | (st, .ok result) =>
          match addDirectorySubcrates f env st parentId dirPath rest with
          | (st, .ok results) => (st, .ok (result :: results))
          | (st, .error e) => (st, .error e)
        | (st, .error _) => addDirectorySubcrates f env st parentId dirPath rest

/-- `CrateIndex::add_directory_subcrate` from lib.rs: add a directory crate
under a caller-chosen hierarchical id. -/
def addDirectorySubcrate : Nat → Env → IndexState → Str → Str →
    IndexState × Except IndexError AddResult
  | 0, _, st, _, _ => (st, .error .fuelExhausted)
  | f + 1, env, st, crateId, dirPath =>
    match env.load (.Directory dirPath) with
    | .error e => (st, .error e)
    | .ok (crateData, rawJson) =>
      let st := { st with
        disk := insertA (metadata_path_for_crate env crateId) rawJson st.disk }
      match graph_to_json crateData with
      | .error e => (st, .error e)
      | .ok entities =>
        let entityCount := (indexCrate st crateId entities).2
        let st := (indexCrate st crateId entities).1
        let st := { st with store := insertA crateId crateData st.store }
        let st := { st with manifest := st.manifest.addCrate (CrateEntry.new crateId) }
        match addDirectorySubcrates f env st crateId dirPath
            (get_subcrate_entity_ids entities) with
        | (st, .error e) => (st, .error e)
        | (st, .ok subcrates) => (st, .ok (.mk crateId entityCount subcrates))

end

/-- `CrateIndex::remove` from lib.rs: delete by term from the FTS, drop the
store entry, delete the on-disk metadata file if present, drop the manifest
entry. -/
def removeCrate (env : Env) (st : IndexState) (crateId : Str) :
    IndexState × Except IndexError Unit :=
  ({ fts := remove_crate_docs st.fts crateId
     store := eraseA crateId st.store
     disk :=
       if containsA (metadata_path_for_crate env crateId) st.disk then
         eraseA (metadata_path_for_crate env crateId) st.disk
       else st.disk
     manifest := st.manifest.removeCrate crateId
     ulidCtr := st.ulidCtr }, .ok ())

/-- `CrateIndex::crate_count` from lib.rs. -/
def crate_count (st : IndexState) : Nat := st.manifest.length

/-! ## Concrete instances used by individual claims -/

/-- The spec-side reading of `conforms_to_rocrate`, with the prefix the code
actually uses (`https://w3id.org/ro/crate`, no trailing slash): some
`conformsTo` value — a single object's `@id`, an object's `@id` inside an
array, or a bare string itself — starts with the profile prefix. -/
def conformsSpec (e : Json) : Prop :=
  ∃ c, jget (str ("conformsTo")) e = some c ∧
    ((∃ m, c = Json.obj m ∧ ∃ id,
        (jget (str ("@id")) c).bind Json.asStr = some id ∧
        hasPre ROCRATE_PROFILE_PREFIX id = true) ∨
     (∃ l, c = Json.arr l ∧ ∃ v ∈ l, ∃ id,
        (jget (str ("@id")) v).bind Json.asStr = some id ∧
        hasPre ROCRATE_PROFILE_PREFIX id = true) ∨
     (∃ s, c = Json.jstr s ∧ hasPre ROCRATE_PROFILE_PREFIX s = true))

/-- The `@graph` of Scenario 1 of the spec: a root Dataset named `My Data`
with description `d`, and one File entity. -/
def scenario1Graph : List Json :=
  [.obj [(str ("@id"), .jstr (str ("./"))),
         (str ("@type"), .jstr (str ("Dataset"))),
         (str ("conformsTo"),
          .obj [(str ("@id"), .jstr (str ("https://w3id.org/ro/crate/1.1")))]),
         (str ("name"), .jstr (str ("My Data"))),
         (str ("description"), .jstr (str ("d")))],
   .obj [(str ("@id"), .jstr (str ("./file.csv"))),
         (str ("@type"), .jstr (str ("File"))),
         (str ("name"), .jstr (str ("file.csv")))]]

/-- An environment whose loader resolves the Scenario 1 directory to the
Scenario 1 graph; the file-system probes find no subdirectories. -/
def scenario1Env : Env where
  load := fun src =>
    if src = .Directory (str ("d")) then
      .ok (⟨.arr scenario1Graph⟩, str ("rawjson"))
    else .error .io
  ulids := fun _ => str ("01ULID")
  hash := fun s => s
  zipEntries := fun _ => .error .io
  isDir := fun _ => false
  dirHasMetadata := fun _ => false

/-- The empty index state. -/
def emptyState : IndexState := ⟨[], [], [], [], 0⟩

/-- A minimal environment for the removal claims; only the crate-id hash
(modelled as the identity) is ever consulted. -/
def removalEnv : Env where
  load := fun _ => .error .io
  ulids := fun _ => []
  hash := fun s => s
  zipEntries := fun _ => .error .io
  isDir := fun _ => false
  dirHasMetadata := fun _ => false

/-- A two-crate state: crates `A` and `B` share the entity id `x`. -/
def twoCrateState : IndexState :=
  { manifest := [CrateEntry.new (str ("A")), CrateEntry.new (str ("B"))]
    store := [(str ("A"), ⟨.arr []⟩), (str ("B"), ⟨.arr []⟩)]
    fts := [⟨str ("x"), str ("A"), [str ("Dataset")], none, .obj []⟩,
            ⟨str ("x"), str ("B"), [str ("Dataset")], none, .obj []⟩]
    disk := [(str ("metadata/A.json"), str ("rawA")),
             (str ("metadata/B.json"), str ("rawB"))]
    ulidCtr := 0 }

/-! ## Helper lemmas about the string primitives -/

theorem dropWhile_length_le (p : Char → Bool) (l : Str) :
    (l.dropWhile p).length ≤ l.length := by
  induction l with
  | nil => simp
  | cons a t ih =>
    by_cases h : p a
    · rw [List.dropWhile_cons_of_pos h]; simp only [List.length_cons]; omega
    · rw [List.dropWhile_cons_of_neg (by simpa using h)]

theorem hasPre_iff (p s : Str) : hasPre p s = true ↔ p <+: s := by
  induction p generalizing s with
  | nil => simp [hasPre]
  | cons a p' ih =>
    cases s with
    | nil => simp [hasPre]
    | cons b s' =>
      rw [List.cons_prefix_cons]
      unfold hasPre
      by_cases hab : a = b
      · simp [hab, ih]
      · simp [hab]

theorem hasPre_append_self (p t : Str) : hasPre p (p ++ t) = true :=
  (hasPre_iff p (p ++ t)).mpr (List.prefix_append p t)

theorem hasPre_of_append (p b t : Str) (h : hasPre p b = true) :
    hasPre p (b ++ t) = true :=
  (hasPre_iff _ _).mpr (((hasPre_iff p b).mp h).trans (List.prefix_append b t))

theorem dropLeading_suffix (c : Char) (l : Str) : dropLeading c l <:+ l := by
  induction l with
  | nil => simp [dropLeading]
  | cons a t ih =>
    unfold dropLeading
    by_cases h : a = c
    · rw [if_pos h]
      exact ih.trans (List.suffix_cons a t)
    · rw [if_neg h]

theorem rtrimChar_prefix (c : Char) (s : Str) : rtrimChar c s <+: s := by
  have h := List.reverse_prefix.mpr (dropLeading_suffix c s.reverse)
  simpa using h

theorem rtrimChar_append_same (c : Char) (s : Str) :
    rtrimChar c (s ++ [c]) = rtrimChar c s := by
  unfold rtrimChar
  rw [List.reverse_append]
  simp [dropLeading]

theorem dropLeading_cons_ne (c a : Char) (t : Str) (h : ¬ a = c) :
    dropLeading c (a :: t) = a :: t := by
  simp [dropLeading, h]

theorem rtrimChar_of_reverse_cons (c a : Char) (s t : Str)
    (hrev : s.reverse = a :: t) (h : ¬ a = c) : rtrimChar c s = s := by
  unfold rtrimChar
  rw [hrev, dropLeading_cons_ne c a t h, ← hrev, List.reverse_reverse]

theorem rtrimChar_of_not_suffix (c : Char) (s : Str)
    (h : hasSuf [c] s = false) : rtrimChar c s = s := by
  cases hrev : s.reverse with
  | nil =>
    have : s = [] := by simpa using congrArg List.reverse hrev
    simp [this, rtrimChar, dropLeading]
  | cons a t =>
    refine rtrimChar_of_reverse_cons c a s t hrev ?_
    intro hac
    have hT : hasSuf [c] s = true := by
      unfold hasSuf
      rw [show ([c] : Str).reverse = [c] from rfl, hrev, ← hac]
      simp [hasPre]
    simp [hT] at h

theorem breakAtFirst_append (c : Char) (a b : Str) (h : c ∉ a) :
    breakAtFirst c (a ++ c :: b) = some (a, b) := by
  induction a with
  | nil => simp [breakAtFirst]
  | cons x t ih =>
    have hx : ¬ x = c := by
      intro he
      exact h (by simp [he])
    have ht : c ∉ t := fun hm => h (List.mem_cons_of_mem x hm)
    simp [breakAtFirst, if_neg hx, ih ht]

/-- A clean URL (no trailing slash, not ending in the metadata file name) is
fixed by `normalize_url_for_id`. -/
theorem normalize_of_clean (u : Str) (h1 : hasSuf (str ("/")) u = false)
    (h2 : hasSuf (str ("ro-crate-metadata.json")) u = false) :
    normalize_url_for_id u = u := by
  unfold normalize_url_for_id
  have ht : rtrimChar '/' u = u := rtrimChar_of_not_suffix '/' u h1
  simp only [ht, h2]
  simp

/-- Appending a trailing slash never changes the derived crate id. -/
theorem normalize_append_slash (u : Str) :
    normalize_url_for_id (u ++ str ("/")) = normalize_url_for_id u := by
  unfold normalize_url_for_id
  rw [show (str ("/")) = ['/'] from rfl, rtrimChar_append_same]

/-- Appending a `/ro-crate-metadata.json` segment to a clean URL does not
change the derived crate id. -/
theorem normalize_append_meta (u : Str) (h1 : hasSuf (str ("/")) u = false)
    (h2 : hasSuf (str ("ro-crate-metadata.json")) u = false) :
    normalize_url_for_id (u ++ str ("/ro-crate-metadata.json")) =
      normalize_url_for_id u := by
  have hrev : (u ++ str ("/ro-crate-metadata.json")).reverse =
      str ("nosj.atadatem-etarc-or") ++ '/' :: u.reverse := by
    rw [List.reverse_append]
    rfl
  have hrtrim : rtrimChar '/' (u ++ str ("/ro-crate-metadata.json")) =
      u ++ str ("/ro-crate-metadata.json") := by
    refine rtrimChar_of_reverse_cons '/' 'n'
      (u ++ str ("/ro-crate-metadata.json"))
      (str ("osj.atadatem-etarc-or") ++ '/' :: u.reverse) ?_ (by decide)
    rw [hrev]
    rfl
  have hsuf : hasSuf (str ("ro-crate-metadata.json"))
      (u ++ str ("/ro-crate-metadata.json")) = true := by
    rw [hasSuf, hrev]
    exact hasPre_of_append _ _ _ (hasPre_append_self _ [])
  have hsplit : rsplitOnce '/' (u ++ str ("/ro-crate-metadata.json")) =
      some (u, str ("ro-crate-metadata.json")) := by
    rw [rsplitOnce, hrev,
      breakAtFirst_append '/' (str ("nosj.atadatem-etarc-or")) u.reverse
        (by decide)]
    show some ((u.reverse).reverse, (str ("nosj.atadatem-etarc-or")).reverse) =
      some (u, str ("ro-crate-metadata.json"))
    rw [List.reverse_reverse]
    rfl
  rw [normalize_of_clean u h1 h2]
  unfold normalize_url_for_id
  simp only [hrtrim, hsuf, if_true, hsplit]

/-! ## Lemmas about `resolve_id` -/

theorem hasPre_cons_ne (a b : Char) (p s : Str) (h : ¬ a = b) :
    hasPre (a :: p) (b :: s) = false := by
  simp [hasPre, h]

theorem hasPre_self (p : Str) : hasPre p p = true :=
  (hasPre_iff p p).mpr (List.prefix_refl p)

theorem resolve_id_absolute (x base : Str)
    (h : (hasPre (str ("http://")) x || hasPre (str ("https://")) x) = true) :
    resolve_id x base = x := by
  unfold resolve_id
  rw [if_pos h]

theorem resolve_id_dot (base : Str) :
    resolve_id (str ("./")) base = rtrimChar '/' base := by
  unfold resolve_id
  rw [if_neg (by decide), if_pos rfl]

theorem resolve_id_dotslash (base x : Str) (hx : x ≠ []) :
    resolve_id (str ("./") ++ x) base =
      rtrimChar '/' base ++ str ("/") ++ x := by
  have hc1 : (hasPre (str ("http://")) (str ("./") ++ x) ||
      hasPre (str ("https://")) (str ("./") ++ x)) = false := by
    have e1 : hasPre (str ("http://")) ('.' :: ('/' :: x)) = false :=
      hasPre_cons_ne 'h' '.' (str ("ttp://")) ('/' :: x) (by decide)
    have e2 : hasPre (str ("https://")) ('.' :: ('/' :: x)) = false :=
      hasPre_cons_ne 'h' '.' (str ("ttps://")) ('/' :: x) (by decide)
    show (hasPre (str ("http://")) ('.' :: ('/' :: x)) ||
      hasPre (str ("https://")) ('.' :: ('/' :: x))) = false
    rw [e1, e2]
    rfl
  have hc2 : ¬ (str ("./") ++ x = str ("./")) := by
    intro he
    have he2 : '.' :: ('/' :: x) = '.' :: ('/' :: ([] : Str)) := he
    injection he2 with _ he3
    injection he3 with _ he4
    exact hx he4
  have hc3 : hasPre (str ("./")) (str ("./") ++ x) = true := hasPre_append_self _ _
  unfold resolve_id
  rw [if_neg (by rw [hc1]; exact Bool.false_ne_true), if_neg hc2, if_pos hc3]
  rfl

theorem resolve_id_hash (base frag : Str) :
    resolve_id ('#' :: frag) base = base ++ '#' :: frag := by
  have hc1 : (hasPre (str ("http://")) ('#' :: frag) ||
      hasPre (str ("https://")) ('#' :: frag)) = false := by
    have e1 : hasPre (str ("http://")) ('#' :: frag) = false :=
      hasPre_cons_ne 'h' '#' (str ("ttp://")) frag (by decide)
    have e2 : hasPre (str ("https://")) ('#' :: frag) = false :=
      hasPre_cons_ne 'h' '#' (str ("ttps://")) frag (by decide)
    rw [e1, e2]
    rfl
  have hc2 : ¬ (('#' :: frag : Str) = str ("./")) := by
    intro he
    have he2 : '#' :: frag = '.' :: ('/' :: ([] : Str)) := he
    injection he2 with h1 _
    exact absurd h1 (by decide)
  have hc3 : hasPre (str ("./")) ('#' :: frag) = false :=
    hasPre_cons_ne '.' '#' (str ("/")) frag (by decide)
  have hc4 : hasPre (str ("#")) ('#' :: frag) = true := by
    show (if '#' = '#' then hasPre [] frag else false) = true
    rw [if_pos rfl]
    rfl
  unfold resolve_id
  rw [if_neg (by rw [hc1]; exact Bool.false_ne_true), if_neg hc2, hc3, hc4]
  simp

theorem resolve_id_bare (base x : Str)
    (h1 : hasPre (str ("http://")) x = false)
    (h2 : hasPre (str ("https://")) x = false)
    (h3 : hasPre (str ("./")) x = false)
    (h4 : hasPre (str ("#")) x = false) :
    resolve_id x base = rtrimChar '/' base ++ str ("/") ++ x := by
  have hc2 : ¬ (x = str ("./")) := by
    intro he
    rw [he, hasPre_self] at h3
    simp at h3
  unfold resolve_id
  rw [if_neg (by rw [h1, h2]; exact Bool.false_ne_true), if_neg hc2, h3, h4]
  simp

theorem resolve_id_result_absolute (x base : Str)
    (hb : (hasPre (str ("http://")) (rtrimChar '/' base) ||
      hasPre (str ("https://")) (rtrimChar '/' base)) = true) :
    (hasPre (str ("http://")) (resolve_id x base) ||
      hasPre (str ("https://")) (resolve_id x base)) = true := by
  have hext : ∀ t : Str,
      (hasPre (str ("http://")) (rtrimChar '/' base ++ t) ||
        hasPre (str ("https://")) (rtrimChar '/' base ++ t)) = true := by
    intro t
    rcases Bool.or_eq_true_iff.mp hb with h | h
    · rw [hasPre_of_append _ _ _ h]
      rfl
    · rw [hasPre_of_append _ _ _ h]
      simp
  have hbase : (hasPre (str ("http://")) base ||
      hasPre (str ("https://")) base) = true := by
    have hpre := rtrimChar_prefix '/' base
    rcases hpre with ⟨t, ht⟩
    have := hext t
    rwa [ht] at this
  by_cases hc1 : (hasPre (str ("http://")) x || hasPre (str ("https://")) x) = true
  · rw [resolve_id_absolute x base hc1]
    exact hc1
  · unfold resolve_id
    rw [if_neg hc1]
    by_cases hc2 : x = str ("./")
    · rw [if_pos hc2]
      simpa using hb
    · rw [if_neg hc2]
      by_cases hc3 : hasPre (str ("./")) x = true
      · rw [hc3]
        simp only [if_true]
        rw [List.append_assoc]
        exact hext _
      · rw [Bool.not_eq_true] at hc3
        rw [hc3]
        simp only [Bool.false_eq_true, if_false]
        by_cases hc4 : hasPre (str ("#")) x = true
        · rw [hc4]
          simp only [if_true]
          rcases Bool.or_eq_true_iff.mp hbase with h | h
          · rw [hasPre_of_append _ _ _ h]
            rfl
          · rw [hasPre_of_append _ _ _ h]
            simp
        · rw [Bool.not_eq_true] at hc4
          rw [hc4]
          simp only [Bool.false_eq_true, if_false]
          rw [List.append_assoc]
          exact hext _

/-! ## Characterization of `conforms_to_rocrate` -/

theorem checkConformsId_iff (v : Json) : checkConformsId v = true ↔
    ∃ id, (jget (str ("@id")) v).bind Json.asStr = some id ∧
      hasPre ROCRATE_PROFILE_PREFIX id = true := by
  cases h : (jget (str ("@id")) v).bind Json.asStr with
  | none => simp [checkConformsId, h]
  | some id => simp [checkConformsId, h]

theorem conforms_to_rocrate_iff (e : Json) :
    conforms_to_rocrate e = true ↔ conformsSpec e := by
  unfold conforms_to_rocrate conformsSpec
  cases hj : jget (str ("conformsTo")) e with
  | none => simp
  | some c =>
    cases c with
    | null => simp
    | bool b => simp
    | num n => simp
    | jstr s =>
      simp only [Option.some.injEq]
      constructor
      · intro h
        exact ⟨.jstr s, rfl, .inr (.inr ⟨s, rfl, h⟩)⟩
      · rintro ⟨c, hc, hd⟩
        subst hc
        rcases hd with ⟨m, hm, _⟩ | ⟨l, hl, _⟩ | ⟨s', hs', hp⟩
        · cases hm
        · cases hl
        · cases hs'
          exact hp
    | arr l =>
      simp only [Option.some.injEq]
      rw [List.any_eq_true]
      constructor
      · rintro ⟨v, hv, hcheck⟩
        obtain ⟨id, hid, hpre⟩ := (checkConformsId_iff v).mp hcheck
        exact ⟨.arr l, rfl, .inr (.inl ⟨l, rfl, v, hv, id, hid, hpre⟩)⟩
      · rintro ⟨c, hc, hd⟩
        subst hc
        rcases hd with ⟨m, hm, _⟩ | ⟨l', hl', v, hv, id, hid, hpre⟩ | ⟨s', hs', _⟩
        · cases hm
        · cases hl'
          exact ⟨v, hv, (checkConformsId_iff v).mpr ⟨id, hid, hpre⟩⟩
        · cases hs'
    | obj m =>
      simp only [Option.some.injEq]
      rw [checkConformsId_iff]
      constructor
      · rintro ⟨id, hid, hpre⟩
        exact ⟨.obj m, rfl, .inl ⟨m, rfl, id, hid, hpre⟩⟩
      · rintro ⟨c, hc, hd⟩
        subst hc
        rcases hd with ⟨m', _, id, hid, hpre⟩ | ⟨l', hl', _⟩ | ⟨s', hs', _⟩
        · exact ⟨id, hid, hpre⟩
        · cases hl'
        · cases hs'

/-! ## Claim C3 -/

/-- C3 counterexample: the claim requires the matched prefix to carry a
trailing slash, so the bare profile URL `https://w3id.org/ro/crate` must not
match; but `conforms_to_rocrate` accepts it (the code's prefix constant has
no trailing slash), refuting the claimed iff at this entity. -/
theorem claim_C3_counterexample :
    conforms_to_rocrate
      (.obj [(str ("conformsTo"), .jstr (str ("https://w3id.org/ro/crate")))]) = true ∧
    hasPre (str ("https://w3id.org/ro/crate/"))
      (str ("https://w3id.org/ro/crate")) = false := by decide

/-- C3 (amended): `conforms_to_rocrate entity` is true iff some `conformsTo`
value — a single object's `@id`, an object's `@id` inside an array, or a
bare string itself — starts with `https://w3id.org/ro/crate` (no trailing
slash), so the exact string `https://w3id.org/ro/crate` does match. -/
theorem claim_C3_theorem :
    (∀ e, conforms_to_rocrate e = true ↔ conformsSpec e) ∧
    conforms_to_rocrate
      (.obj [(str ("conformsTo"), .jstr ROCRATE_PROFILE_PREFIX)]) = true :=
  ⟨conforms_to_rocrate_iff, by decide⟩

/-! ## Claim C4 -/

/-- C4: for the zip of Scenario 4 (entries `root/ro-crate-metadata.json` and
`root/experiments/ro-crate-metadata.json`, root graph referencing
`./experiments/`), the discovery maps the entity to the nested metadata
entry, but `to_crate_id` of the resulting `ZipSubcrate` is
`<parent_id>/root` — the `experiments` segment is dropped (after stripping
the `/ro-crate-metadata.json` suffix the code unconditionally also strips
the final path segment), contradicting the claimed `<parent_id>/experiments`. -/
theorem claim_C4_theorem :
    find_subcrate_matches
      [str ("root/ro-crate-metadata.json"),
       str ("root/experiments/ro-crate-metadata.json")]
      [str ("./experiments/")] =
      [(str ("./experiments/"), str ("root/experiments/ro-crate-metadata.json"))] ∧
    CrateSource.to_crate_id []
      (.ZipSubcrate (str ("parent")) (str ("crate.zip"))
        (str ("root/experiments/ro-crate-metadata.json"))) = str ("parent/root") ∧
    str ("parent/root") ≠ str ("parent/experiments") := by decide

/-! ## Claim C5 -/

/-- C5: `resolve_id` maps absolute ids to themselves, `./` to the
slash-trimmed crate base, `./x` to `<base>/x`, `#frag` to the untrimmed
`<base>#frag`, and a bare `x` to `<base>/x`; with base
`https://example.org/c` the three literal examples of the spec hold. -/
theorem claim_C5_theorem (base x frag : Str) :
    ((hasPre (str ("http://")) x = true ∨ hasPre (str ("https://")) x = true) →
      resolve_id x base = x) ∧
    resolve_id (str ("./")) base = rtrimChar '/' base ∧
    (x ≠ [] → resolve_id (str ("./") ++ x) base =
      rtrimChar '/' base ++ str ("/") ++ x) ∧
    resolve_id ('#' :: frag) base = base ++ '#' :: frag ∧
    ((hasPre (str ("http://")) x = false ∧ hasPre (str ("https://")) x = false ∧
      hasPre (str ("./")) x = false ∧ hasPre (str ("#")) x = false) →
      resolve_id x base = rtrimChar '/' base ++ str ("/") ++ x) ∧
    resolve_id (str ("./")) (str ("https://example.org/c")) =
      str ("https://example.org/c") ∧
    resolve_id (str ("./data.csv")) (str ("https://example.org/c")) =
      str ("https://example.org/c/data.csv") ∧
    resolve_id (str ("#p1")) (str ("https://example.org/c")) =
      str ("https://example.org/c#p1") := by
  refine ⟨?_, resolve_id_dot base, fun hx => resolve_id_dotslash base x hx,
    resolve_id_hash base frag, ?_, by decide, by decide, by decide⟩
  · intro h
    apply resolve_id_absolute
    rcases h with h | h
    · rw [h]
      rfl
    · rw [h]
      simp
  · rintro ⟨h1, h2, h3, h4⟩
    exact resolve_id_bare base x h1 h2 h3 h4

/-- C5 witness: the five rules instantiated at concrete inputs. -/
theorem claim_C5_witness :
    resolve_id (str ("https://orcid.org/0000-0001")) (str ("https://example.org/c")) =
      str ("https://orcid.org/0000-0001") ∧
    resolve_id (str ("./") ++ str ("data.csv")) (str ("https://example.org/c")) =
      rtrimChar '/' (str ("https://example.org/c")) ++ str ("/") ++ str ("data.csv") ∧
    resolve_id (str ("data.csv")) (str ("https://example.org/c")) =
      rtrimChar '/' (str ("https://example.org/c")) ++ str ("/") ++ str ("data.csv") :=
  ⟨(claim_C5_theorem (str ("https://example.org/c"))
      (str ("https://orcid.org/0000-0001")) []).1 (.inr (by decide)),
   (claim_C5_theorem (str ("https://example.org/c")) (str ("data.csv")) []).2.2.1
      (by decide),
   (claim_C5_theorem (str ("https://example.org/c")) (str ("data.csv")) []).2.2.2.2.1
      ⟨by decide, by decide, by decide, by decide⟩⟩

/-! ## Claim C6 -/

/-- C6 counterexample: idempotence fails for non-URL crate bases (every
local crate id is such a base): with base `b`, `./` resolves to `b`, and
resolving `b` again yields `b/b`. -/
theorem claim_C6_counterexample :
    resolve_id (resolve_id (str ("./")) (str ("b"))) (str ("b")) ≠
      resolve_id (str ("./")) (str ("b")) := by decide

/-- C6 (amended): `resolve_id` is idempotent whenever the slash-trimmed
crate base is an absolute `http://` / `https://` URL (every resolved id is
then itself absolute, and absolute ids are returned unchanged). -/
theorem claim_C6_theorem (x base : Str)
    (hb : (hasPre (str ("http://")) (rtrimChar '/' base) ||
      hasPre (str ("https://")) (rtrimChar '/' base)) = true) :
    resolve_id (resolve_id x base) base = resolve_id x base :=
  resolve_id_absolute _ base (resolve_id_result_absolute x base hb)

/-- C6 witness: idempotence at a concrete id and URL base. -/
theorem claim_C6_witness :
    resolve_id (resolve_id (str ("./data.csv")) (str ("https://example.org/c")))
      (str ("https://example.org/c")) =
      resolve_id (str ("./data.csv")) (str ("https://example.org/c")) :=
  claim_C6_theorem (str ("./data.csv")) (str ("https://example.org/c")) (by decide)

/-! ## Claim C7 -/

/-- C7 counterexample: `https://ex/c/` and
`https://ex/c//ro-crate-metadata.json` differ only in a trailing
`/ro-crate-metadata.json` segment, yet map to the crate ids `https://ex/c`
and `https://ex/c/` respectively (the stripping at the last slash keeps the
leftover slash, which the initial trim no longer removes). -/
theorem claim_C7_counterexample :
    str ("https://ex/c//ro-crate-metadata.json") =
      str ("https://ex/c/") ++ str ("/ro-crate-metadata.json") ∧
    CrateSource.to_crate_id [] (.Url (str ("https://ex/c//ro-crate-metadata.json"))) ≠
      CrateSource.to_crate_id [] (.Url (str ("https://ex/c/"))) := by decide

/-- C7 (amended): `to_crate_id` of the `Url` / `UrlSubcrate` variants is a
function of the URL alone (the fresh ULID is ignored), a trailing `/` never
changes the id, and appending a `/ro-crate-metadata.json` segment to a URL
that does not already end in `/` or in `ro-crate-metadata.json` does not
change the id; in particular `https://ex/c`, `https://ex/c/` and
`https://ex/c/ro-crate-metadata.json` all map to `https://ex/c`. -/
theorem claim_C7_theorem :
    (∀ fresh u, (CrateSource.Url u).to_crate_id fresh = normalize_url_for_id u) ∧
    (∀ fresh pid m, (CrateSource.UrlSubcrate pid m).to_crate_id fresh =
      normalize_url_for_id m) ∧
    (∀ u, normalize_url_for_id (u ++ str ("/")) = normalize_url_for_id u) ∧
    (∀ u, hasSuf (str ("/")) u = false →
      hasSuf (str ("ro-crate-metadata.json")) u = false →
      normalize_url_for_id (u ++ str ("/ro-crate-metadata.json")) =
        normalize_url_for_id u) ∧
    (CrateSource.Url (str ("https://ex/c"))).to_crate_id [] = str ("https://ex/c") ∧
    (CrateSource.Url (str ("https://ex/c/"))).to_crate_id [] = str ("https://ex/c") ∧
    (CrateSource.Url (str ("https://ex/c/ro-crate-metadata.json"))).to_crate_id [] =
      str ("https://ex/c") :=
  ⟨fun _ _ => rfl, fun _ _ _ => rfl, normalize_append_slash,
   normalize_append_meta, by decide, by decide, by decide⟩

/-- C7 witness: the metadata-segment rule at a concrete clean URL. -/
theorem claim_C7_witness :
    normalize_url_for_id (str ("https://ex/c") ++ str ("/ro-crate-metadata.json")) =
      normalize_url_for_id (str ("https://ex/c")) :=
  claim_C7_theorem.2.2.2.1 (str ("https://ex/c")) (by decide) (by decide)

/-! ## Claim C9 -/

theorem preprocessGo_id (fuel : Nat) :
    ∀ s : Str, s.length ≤ fuel → ':' ∉ s → preprocessGo fuel s = s := by
  induction fuel with
  | zero =>
    intro s hf _
    have : s = [] := List.length_eq_zero.mp (Nat.le_zero.mp hf)
    rw [this]
    rfl
  | succ fuel ih =>
    intro s hf hc
    cases s with
    | nil => rfl
    | cons c rest =>
      have hrest : ':' ∉ rest := fun hm => hc (List.mem_cons_of_mem c hm)
      have hlen : rest.length ≤ fuel := by
        simp only [List.length_cons] at hf
        omega
      unfold preprocessGo
      by_cases hq : c = '"'
      · rw [if_pos hq]
        have hsub : ':' ∉ rest.drop (quotedLen rest) :=
          fun hm => hrest (List.drop_subset _ _ hm)
        have hdlen : (rest.drop (quotedLen rest)).length ≤ fuel := by
          rw [List.length_drop]
          omega
        rw [ih _ hdlen hsub, List.take_append_drop]
      · rw [if_neg hq]
        by_cases hw : isWordStart c = true
        · rw [if_pos hw]
          have hsufr : rest.dropWhile isWordCont <:+ rest :=
            List.dropWhile_suffix isWordCont
          have hrlen : (rest.dropWhile isWordCont).length ≤ fuel :=
            Nat.le_trans (dropWhile_length_le isWordCont rest) hlen
          have hrmem : ':' ∉ rest.dropWhile isWordCont :=
            fun hm => hrest (hsufr.subset hm)
          have hhead : ¬ ((rest.dropWhile isWordCont).head? = some ':') := by
            intro hh
            cases hr : rest.dropWhile isWordCont with
            | nil => rw [hr] at hh; cases hh
            | cons a t =>
              rw [hr] at hh
              simp only [List.head?_cons, Option.some.injEq] at hh
              rw [hr] at hrmem
              exact hrmem (hh ▸ List.mem_cons_self a t)
          rw [if_neg hhead, ih _ hrlen hrmem]
          show c :: (rest.takeWhile isWordCont ++ rest.dropWhile isWordCont) = c :: rest
          rw [List.takeWhile_append_dropWhile]
        · rw [if_neg hw, ih rest hlen hrest]

/-- `preprocess_query` is the identity on queries without a colon. -/
theorem preprocess_query_id (s : Str) (h : ':' ∉ s) : preprocess_query s = s :=
  preprocessGo_id s.length s le_rfl h

/-- C9 counterexample: the claim says the string handed to the FTS query
parser equals the query unchanged for every query, but `preprocess_query`
rewrites `name:Test` to `properties.name:Test`. -/
theorem claim_C9_counterexample :
    preprocess_query (str ("name:Test")) = str ("properties.name:Test") ∧
    str ("properties.name:Test") ≠ str ("name:Test") := by decide

/-- C9 (amended): the query pre-processing is a pass-through for queries
with no `field:` pattern (no colon at all), and otherwise only prefixes
unknown field roots of `field:value` patterns with `properties.`, leaving
known fields (`id`, `occurs_in`, `entity_type`, `content`, `properties`)
untouched; field-name resolution for the rewritten defaults stays with the
FTS default fields `content` and `properties`. -/
theorem claim_C9_theorem :
    (∀ q : Str, ':' ∉ q → preprocess_query q = q) ∧
    preprocess_query (str ("author.name:Smith")) =
      str ("properties.author.name:Smith") ∧
    preprocess_query (str ("content:Smith")) = str ("content:Smith") ∧
    preprocess_query (str ("entity_type:Person AND author.name:Smith")) =
      str ("entity_type:Person AND properties.author.name:Smith") :=
  ⟨preprocess_query_id, by decide, by decide, by decide⟩

/-- C9 witness: the pass-through rule at a concrete colon-free query. -/
theorem claim_C9_witness :
    preprocess_query (str ("hello world")) = str ("hello world") :=
  claim_C9_theorem.1 (str ("hello world")) (by decide)

/-! ## Claim C10 -/

/-- C10: `search_by_id` returns at most 1000 hits — the top-docs limit is
the fixed constant 1000, not a caller parameter — and
`find_crates_by_entity` reports exactly the crate ids occurring among those
(at most 1000) hits. -/
theorem claim_C10_theorem (fts : List Doc) (entityId : Str) :
    (search_by_id fts entityId).length ≤ 1000 ∧
    ∀ c, c ∈ find_crates_by_entity fts entityId ↔
      c ∈ (search_by_id fts entityId).map SearchHit.crate_id := by
  constructor
  · rw [search_by_id, List.length_map, List.length_take]
    exact min_le_left _ _
  · intro c
    rw [find_crates_by_entity, List.mem_dedup]

/-! ## Claim C2 -/

theorem lookupA_eraseA_self {α : Type} (k : Str) (l : List (Str × α)) :
    lookupA k (eraseA k l) = none := by
  induction l with
  | nil => rfl
  | cons p t ih =>
    obtain ⟨k', v⟩ := p
    by_cases h : k' = k
    · simp [eraseA, List.filter_cons, h, ih]
      simpa [eraseA] using ih
    · simp only [eraseA, List.filter_cons] at ih ⊢
      rw [show ((k', v).1 == k) = false by simpa using h]
      simp only [Bool.not_false, if_true]
      simp [lookupA, h]
      simpa [eraseA] using ih

theorem containsA_false_lookupA {α : Type} (k : Str) (l : List (Str × α))
    (h : containsA k l = false) : lookupA k l = none := by
  unfold containsA at h
  cases hl : lookupA k l with
  | none => rfl
  | some v => rw [hl] at h; cases h

theorem removeCrate_manifest_not_contains (m : Manifest) (k : Str) :
    (m.removeCrate k).containsId k = false := by
  induction m with
  | nil => rfl
  | cons e t ih =>
    by_cases h : e.crate_id = k
    · simpa [Manifest.removeCrate, List.filter_cons, h] using
        (by simpa [Manifest.removeCrate] using ih)
    · simp only [Manifest.removeCrate, List.filter_cons] at ih ⊢
      rw [show (e.crate_id == k) = false by simpa using h]
      simp only [Bool.not_false, if_true, Manifest.containsId, List.any_cons]
      rw [show (e.crate_id == k) = false by simpa using h]
      simpa [Manifest.containsId, Manifest.removeCrate] using ih

theorem remove_crate_docs_no_residual (fts : List Doc) (A : Str) :
    ∀ d ∈ remove_crate_docs fts A, d.occurs_in ≠ A := by
  intro d hd
  rw [remove_crate_docs, List.mem_filter] at hd
  intro he
  rw [he] at hd
  simp at hd

theorem remove_crate_docs_keeps_other (fts : List Doc) (A B : Str)
    (hAB : A ≠ B) :
    (remove_crate_docs fts A).filter (fun d => d.occurs_in == B) =
      fts.filter (fun d => d.occurs_in == B) := by
  rw [remove_crate_docs, List.filter_filter]
  apply List.filter_congr
  intro d _
  by_cases h : d.occurs_in = B
  · rw [show (d.occurs_in == B) = true by simpa using h,
      show (d.occurs_in == A) = false by simp [h]; exact fun he => hAB he.symm]
    rfl
  · rw [show (d.occurs_in == B) = false by simpa using h]
    simp

/-- C2: `remove(A)` deletes exactly the FTS documents whose `occurs_in` is
`A`: none remain, every document of another crate `B` is intact,
`search_by_id` of an entity id shared between the two crates returns hits
only for `B`, the on-disk metadata file for `A` is gone, `A`'s manifest
entry is gone, and `A` is gone from the in-memory store. -/
theorem claim_C2_theorem (env : Env) (st : IndexState) (A B sharedId : Str)
    (hAB : A ≠ B)
    (hdocs : ∀ d ∈ st.fts, d.occurs_in = A ∨ d.occurs_in = B) :
    (removeCrate env st A).2 = .ok () ∧
    (∀ d ∈ (removeCrate env st A).1.fts, d.occurs_in ≠ A) ∧
    (removeCrate env st A).1.fts.filter (fun d => d.occurs_in == B) =
      st.fts.filter (fun d => d.occurs_in == B) ∧
    (∀ h ∈ search_by_id (removeCrate env st A).1.fts sharedId,
      h.crate_id = B) ∧
    lookupA (metadata_path_for_crate env A) (removeCrate env st A).1.disk = none ∧
    (removeCrate env st A).1.manifest.containsId A = false ∧
    lookupA A (removeCrate env st A).1.store = none := by
  have hfts : (removeCrate env st A).1.fts = remove_crate_docs st.fts A := rfl
  refine ⟨rfl, ?_, ?_, ?_, ?_, ?_, ?_⟩
  · rw [hfts]
    exact remove_crate_docs_no_residual st.fts A
  · rw [hfts]
    exact remove_crate_docs_keeps_other st.fts A B hAB
  · intro h hh
    rw [hfts, search_by_id, List.mem_map] at hh
    obtain ⟨d, hd, hdh⟩ := hh
    have hd2 : d ∈ (remove_crate_docs st.fts A).filter (fun d => d.id == sharedId) :=
      List.take_subset _ _ hd
    rw [List.mem_filter] at hd2
    have hd3 := hd2.1
    have hne : d.occurs_in ≠ A := remove_crate_docs_no_residual st.fts A d hd3
    have hmem : d ∈ st.fts := by
      rw [remove_crate_docs, List.mem_filter] at hd3
      exact hd3.1
    rcases hdocs d hmem with hA | hB
    · exact absurd hA hne
    · rw [← hdh]
      exact hB
  · show lookupA (metadata_path_for_crate env A)
      (if containsA (metadata_path_for_crate env A) st.disk then
        eraseA (metadata_path_for_crate env A) st.disk else st.disk) = none
    by_cases h : containsA (metadata_path_for_crate env A) st.disk = true
    · rw [if_pos h]
      exact lookupA_eraseA_self _ _
    · rw [Bool.not_eq_true] at h
      rw [if_neg (by rw [h]; exact Bool.false_ne_true)]
      exact containsA_false_lookupA _ _ h
  · exact removeCrate_manifest_not_contains st.manifest A
  · exact lookupA_eraseA_self A st.store

/-- C2 witness: removal of crate `A` from a concrete two-crate state whose
crates share the entity id `x`. -/
theorem claim_C2_witness :
    (∀ d ∈ (removeCrate removalEnv twoCrateState (str ("A"))).1.fts,
      d.occurs_in ≠ str ("A")) ∧
    (∀ h ∈ search_by_id (removeCrate removalEnv twoCrateState (str ("A"))).1.fts
      (str ("x")), h.crate_id = str ("B")) ∧
    (removeCrate removalEnv twoCrateState (str ("A"))).1.manifest.containsId
      (str ("A")) = false :=
  ⟨(claim_C2_theorem removalEnv twoCrateState (str ("A")) (str ("B")) (str ("x"))
      (by decide) (by decide)).2.1,
   (claim_C2_theorem removalEnv twoCrateState (str ("A")) (str ("B")) (str ("x"))
      (by decide) (by decide)).2.2.2.1,
   (claim_C2_theorem removalEnv twoCrateState (str ("A")) (str ("B")) (str ("x"))
      (by decide) (by decide)).2.2.2.2.2.1⟩

/-! ## Claim C1 -/

theorem bumpUlid_manifest (st : IndexState) (src : CrateSource) :
    (bumpUlid st src).manifest = st.manifest := by
  unfold bumpUlid
  split <;> rfl

theorem bumpUlid_store (st : IndexState) (src : CrateSource) :
    (bumpUlid st src).store = st.store := by
  unfold bumpUlid
  split <;> rfl

theorem bumpUlid_fts (st : IndexState) (src : CrateSource) :
    (bumpUlid st src).fts = st.fts := by
  unfold bumpUlid
  split <;> rfl

theorem bumpUlid_disk (st : IndexState) (src : CrateSource) :
    (bumpUlid st src).disk = st.disk := by
  unfold bumpUlid
  split <;> rfl

theorem indexCrate_manifest (st : IndexState) (cid : Str) (ents : List Json) :
    (indexCrate st cid ents).1.manifest = st.manifest := by
  unfold indexCrate
  split <;> rfl

theorem addCrate_containsId_mono (m : Manifest) (e : CrateEntry) (id : Str)
    (h : m.containsId id = true) : (m.addCrate e).containsId id = true := by
  unfold Manifest.addCrate
  by_cases hc : m.containsId e.crate_id = true
  · rw [if_pos hc]
    obtain ⟨x, hx, hbx⟩ := List.any_eq_true.mp h
    refine List.any_eq_true.mpr
      ⟨(fun y => if y.crate_id == e.crate_id then e else y) x,
       List.mem_map_of_mem _ hx, ?_⟩
    dsimp only
    by_cases hxe : (x.crate_id == e.crate_id) = true
    · rw [if_pos hxe]
      have h1 : x.crate_id = e.crate_id := by simpa using hxe
      have h2 : x.crate_id = id := by simpa using hbx
      simp [← h1, h2]
    · rw [Bool.not_eq_true] at hxe
      rw [hxe]
      simpa using hbx
  · rw [if_neg hc, Manifest.containsId, List.any_append]
    rw [show m.any (fun x => x.crate_id == id) = true from h]
    rfl

theorem addCrate_containsId_self (m : Manifest) (e : CrateEntry) :
    (m.addCrate e).containsId e.crate_id = true := by
  unfold Manifest.addCrate
  by_cases hc : m.containsId e.crate_id = true
  · rw [if_pos hc]
    obtain ⟨x, hx, hbx⟩ := List.any_eq_true.mp hc
    refine List.any_eq_true.mpr
      ⟨(fun y => if y.crate_id == e.crate_id then e else y) x,
       List.mem_map_of_mem _ hx, ?_⟩
    dsimp only
    rw [if_pos hbx]
    simp
  · rw [if_neg hc, Manifest.containsId, List.any_append]
    simp

/-- Manifest membership is monotone along the whole add pipeline: no stage
ever removes a manifest entry. Proved for all seven mutually recursive
stages at once, by induction on fuel. -/
theorem pipeline_manifest_mono : ∀ fuel : Nat,
    (∀ env st src id, st.manifest.containsId id = true →
      (addFromSource fuel env st src).1.manifest.containsId id = true) ∧
    (∀ env st src pid ents id, st.manifest.containsId id = true →
      (discoverAndAddSubcrates fuel env st src pid ents).1.manifest.containsId id
        = true) ∧
    (∀ env st pid infos id, st.manifest.containsId id = true →
      (addUrlSubcrates fuel env st pid infos).1.manifest.containsId id = true) ∧
    (∀ env st pid zp ents id, st.manifest.containsId id = true →
      (addZipSubcrates fuel env st pid zp ents).1.manifest.containsId id = true) ∧
    (∀ env st pid zp ms id, st.manifest.containsId id = true →
      (addZipMatches fuel env st pid zp ms).1.manifest.containsId id = true) ∧
    (∀ env st pid dp eids id, st.manifest.containsId id = true →
      (addDirectorySubcrates fuel env st pid dp eids).1.manifest.containsId id
        = true) ∧
    (∀ env st cid dp id, st.manifest.containsId id = true →
      (addDirectorySubcrate fuel env st cid dp).1.manifest.containsId id = true) := by
  intro fuel
  induction fuel with
  | zero =>
    exact ⟨fun _ _ _ _ h => h, fun _ _ _ _ _ _ h => h, fun _ _ _ _ _ h => h,
      fun _ _ _ _ _ _ h => h, fun _ _ _ _ _ _ h => h, fun _ _ _ _ _ _ h => h,
      fun _ _ _ _ _ h => h⟩
  | succ f ih =>
    obtain ⟨ihA, ihD, ihU, ihZ, ihM, ihDS, ihDC⟩ := ih
    refine ⟨?_, ?_, ?_, ?_, ?_, ?_, ?_⟩
    · -- addFromSource
      intro env st src id h
      have hb : (bumpUlid st src).manifest.containsId id = true := by
        rw [bumpUlid_manifest]
        exact h
      simp only [addFromSource]
      split
      · exact hb
      · split
        · exact hb
        · split
          · exact hb
          · split
            · next stX e heq =>
                have hfst := congrArg Prod.fst heq
                dsimp only at hfst ⊢
                rw [← hfst]
                refine ihD env _ src _ _ id ?_
                dsimp only
                refine addCrate_containsId_mono _ (CrateEntry.new _) id ?_
                rw [indexCrate_manifest]
                dsimp only
                exact hb
            · next stX subs heq =>
                have hfst := congrArg Prod.fst heq
                dsimp only at hfst ⊢
                rw [← hfst]
                refine ihD env _ src _ _ id ?_
                dsimp only
                refine addCrate_containsId_mono _ (CrateEntry.new _) id ?_
                rw [indexCrate_manifest]
                dsimp only
                exact hb
    · -- discoverAndAddSubcrates
      intro env st src pid ents id h
      cases src with
      | Url u =>
        simp only [discoverAndAddSubcrates]
        exact ihU env st pid _ id h
      | UrlSubcrate p m =>
        simp only [discoverAndAddSubcrates]
        exact ihU env st pid _ id h
      | ZipFile zp =>
        simp only [discoverAndAddSubcrates]
        exact ihZ env st pid zp ents id h
      | ZipSubcrate p zp sp =>
        simp only [discoverAndAddSubcrates]
        exact ihZ env st pid zp ents id h
      | Directory dp =>
        simp only [discoverAndAddSubcrates]
        exact ihDS env st pid dp _ id h
    · -- addUrlSubcrates
      intro env st pid infos id h
      cases infos with
      | nil => exact h
      | cons info rest =>
        simp only [addUrlSubcrates]
        split
        · split
          · exact ihU env st pid rest id h
          · split
            · next st2 result heq =>
                have hm2 := ihA env st
                  (CrateSource.UrlSubcrate pid info.metadata_url) id h
                rw [heq] at hm2
                split
                · next st3 results heq2 =>
                    have hm3 := ihU env st2 pid rest id hm2
                    rw [heq2] at hm3
                    exact hm3
                · next st3 e heq2 =>
                    have hm3 := ihU env st2 pid rest id hm2
                    rw [heq2] at hm3
                    exact hm3
            · next st2 e heq =>
                have hm2 := ihA env st
                  (CrateSource.UrlSubcrate pid info.metadata_url) id h
                rw [heq] at hm2
                exact ihU env st2 pid rest id hm2
        · exact ihU env st pid rest id h
    · -- addZipSubcrates
      intro env st pid zp ents id h
      simp only [addZipSubcrates]
      split
      · exact h
      · split
        · next st2 e hequ =>
            have hm2 := ihU env st pid
              ((detect_subcrates_from_url ents none).filter (fun s => !s.is_relative))
              id h
            rw [hequ] at hm2
            exact hm2
        · next st2 results hequ =>
            have hm2 := ihU env st pid
              ((detect_subcrates_from_url ents none).filter (fun s => !s.is_relative))
              id h
            rw [hequ] at hm2
            split
            · next e heqz => exact hm2
            · next entries heqz =>
                split
                · next st3 more heqm =>
                    have hm3 := ihM env st2 pid zp
                      (find_subcrate_matches entries (get_subcrate_entity_ids ents))
                      id hm2
                    rw [heqm] at hm3
                    exact hm3
                · next st3 e heqm =>
                    have hm3 := ihM env st2 pid zp
                      (find_subcrate_matches entries (get_subcrate_entity_ids ents))
                      id hm2
                    rw [heqm] at hm3
                    exact hm3
    · -- addZipMatches
      intro env st pid zp ms id h
      cases ms with
      | nil => exact h
      | cons p rest =>
        obtain ⟨eid, mp⟩ := p
        simp only [addZipMatches]
        split
        · exact ihM env st pid zp rest id h
        · split
          · next st2 result heq =>
              have hm2 := ihA env st (CrateSource.ZipSubcrate pid zp mp) id h
              rw [heq] at hm2
              split
              · next st3 results heq2 =>
                  have hm3 := ihM env st2 pid zp rest id hm2
                  rw [heq2] at hm3
                  exact hm3
              · next st3 e heq2 =>
                  have hm3 := ihM env st2 pid zp rest id hm2
                  rw [heq2] at hm3
                  exact hm3
          · next st2 e heq =>
              have hm2 := ihA env st (CrateSource.ZipSubcrate pid zp mp) id h
              rw [heq] at hm2
              exact ihM env st2 pid zp rest id hm2
    · -- addDirectorySubcrates
      intro env st pid dp eids id h
      cases eids with
      | nil => exact h
      | cons eid rest =>
        simp only [addDirectorySubcrates]
        split
        · exact ihDS env st pid dp rest id h
        · split
          · exact ihDS env st pid dp rest id h
          · split
            · exact ihDS env st pid dp rest id h
            · split
              · next st2 result heq =>
                  have hm2 := ihDC env st
                    (pid ++ str ("/") ++ rtrimChar '/' (trimStartStr (str ("./")) eid))
                    (dp ++ str ("/") ++ rtrimChar '/' (trimStartStr (str ("./")) eid))
                    id h
                  rw [heq] at hm2
                  split
                  · next st3 results heq2 =>
                      have hm3 := ihDS env st2 pid dp rest id hm2
                      rw [heq2] at hm3
                      exact hm3
                  · next st3 e heq2 =>
                      have hm3 := ihDS env st2 pid dp rest id hm2
                      rw [heq2] at hm3
                      exact hm3
              · next st2 e heq =>
                  have hm2 := ihDC env st
                    (pid ++ str ("/") ++ rtrimChar '/' (trimStartStr (str ("./")) eid))
                    (dp ++ str ("/") ++ rtrimChar '/' (trimStartStr (str ("./")) eid))
                    id h
                  rw [heq] at hm2
                  exact ihDS env st2 pid dp rest id hm2
    · -- addDirectorySubcrate
      intro env st cid dp id h
      simp only [addDirectorySubcrate]
      split
      · exact h
      · split
        · exact h
        · split
          · next stX e heq =>
              have hfst := congrArg Prod.fst heq
              dsimp only at hfst ⊢
              rw [← hfst]
              refine ihDS env _ cid dp _ id ?_
              dsimp only
              refine addCrate_containsId_mono _ (CrateEntry.new _) id ?_
              rw [indexCrate_manifest]
              dsimp only
              exact h
          · next stX subs heq =>
              have hfst := congrArg Prod.fst heq
              dsimp only at hfst ⊢
              rw [← hfst]
              refine ihDS env _ cid dp _ id ?_
              dsimp only
              refine addCrate_containsId_mono _ (CrateEntry.new _) id ?_
              rw [indexCrate_manifest]
              dsimp only
              exact h

/-- The cycle short-circuit of `add_from_source`: a derived id already in
the manifest returns success with zero entities and no subcrates, leaving
everything but the ULID stream position untouched. -/
theorem addFromSource_short_circuit (f : Nat) (env : Env) (st : IndexState)
    (src : CrateSource)
    (h : st.manifest.containsId (src.to_crate_id (env.ulids st.ulidCtr)) = true) :
    addFromSource (f + 1) env st src =
      (bumpUlid st src,
       .ok (.mk (src.to_crate_id (env.ulids st.ulidCtr)) 0 [])) := by
  have hb : (bumpUlid st src).manifest.containsId
      (src.to_crate_id (env.ulids st.ulidCtr)) = true := by
    rw [bumpUlid_manifest]
    exact h
  simp only [addFromSource, hb, if_true]

/-- A successful `add_from_source` leaves the derived crate id in the
manifest. -/
theorem addFromSource_ok_contains (f : Nat) (env : Env) (st st1 : IndexState)
    (src : CrateSource) (r : AddResult)
    (h : addFromSource f env st src = (st1, .ok r)) :
    st1.manifest.containsId (src.to_crate_id (env.ulids st.ulidCtr)) = true := by
  cases f with
  | zero =>
    exact absurd h (by simp [addFromSource])
  | succ f =>
    by_cases hc : (bumpUlid st src).manifest.containsId
        (src.to_crate_id (env.ulids st.ulidCtr)) = true
    · simp only [addFromSource] at h
      rw [if_pos hc] at h
      have h1 := congrArg Prod.fst h
      dsimp only at h1
      rw [← h1, bumpUlid_manifest]
      rw [bumpUlid_manifest] at hc
      exact hc
    · simp only [addFromSource] at h
      rw [if_neg hc] at h
      cases hL : env.load src with
      | error e =>
        rw [hL] at h
        have h2 := congrArg Prod.snd h
        dsimp only at h2
        cases h2
      | ok p =>
        obtain ⟨crateData, rawJson⟩ := p
        rw [hL] at h
        dsimp only at h
        cases hG : graph_to_json crateData with
        | error e =>
          rw [hG] at h
          have h2 := congrArg Prod.snd h
          dsimp only at h2
          cases h2
        | ok entities =>
          rw [hG] at h
          dsimp only at h
          split at h
          · next stX e heq =>
              have h2 := congrArg Prod.snd h
              dsimp only at h2
              cases h2
          · next stX subs heq =>
              have h1 := congrArg Prod.fst h
              dsimp only at h1
              rw [← h1]
              have hfst := congrArg Prod.fst heq
              dsimp only at hfst
              rw [← hfst]
              refine (pipeline_manifest_mono f).2.1 env _ src _ _ _ ?_
              dsimp only
              exact addCrate_containsId_self _ (CrateEntry.new _)

/-- C1: when the derived crate id is already in the manifest,
`add_from_source` returns success with `entity_count = 0` and no subcrates,
and the manifest, store, FTS and on-disk metadata are exactly as before (so
`crate_count` is unchanged); consequently adding the same URL twice leaves
`crate_count` unchanged after the second call. -/
theorem claim_C1_theorem :
    (∀ (f : Nat) (env : Env) (st : IndexState) (src : CrateSource),
      st.manifest.containsId (src.to_crate_id (env.ulids st.ulidCtr)) = true →
      (addFromSource (f + 1) env st src).2 =
        .ok (.mk (src.to_crate_id (env.ulids st.ulidCtr)) 0 []) ∧
      (addFromSource (f + 1) env st src).1.manifest = st.manifest ∧
      (addFromSource (f + 1) env st src).1.store = st.store ∧
      (addFromSource (f + 1) env st src).1.fts = st.fts ∧
      (addFromSource (f + 1) env st src).1.disk = st.disk ∧
      crate_count (addFromSource (f + 1) env st src).1 = crate_count st) ∧
    (∀ (f g : Nat) (env : Env) (st st1 : IndexState) (u : Str) (r : AddResult),
      addFromSource f env st (.Url u) = (st1, .ok r) →
      crate_count (addFromSource (g + 1) env st1 (.Url u)).1 = crate_count st1) := by
  constructor
  · intro f env st src h
    rw [addFromSource_short_circuit f env st src h]
    exact ⟨rfl, bumpUlid_manifest st src, bumpUlid_store st src,
      bumpUlid_fts st src, bumpUlid_disk st src,
      by rw [crate_count, crate_count, bumpUlid_manifest]⟩
  · intro f g env st st1 u r h
    have hcont : st1.manifest.containsId
        ((CrateSource.Url u).to_crate_id (env.ulids st1.ulidCtr)) = true :=
      addFromSource_ok_contains f env st st1 (.Url u) r h
    rw [addFromSource_short_circuit g env st1 (.Url u) hcont]
    rw [crate_count, crate_count, bumpUlid_manifest]

/-- C1 witness: re-adding a URL whose id is already in the manifest of a
concrete two-crate state. -/
theorem claim_C1_witness :
    (addFromSource 1 removalEnv twoCrateState (.Url (str ("A")))).2 =
      .ok (.mk (str ("A")) 0 []) ∧
    crate_count (addFromSource 1 removalEnv twoCrateState (.Url (str ("A")))).1 =
      crate_count twoCrateState ∧
    crate_count (addFromSource 1 removalEnv twoCrateState (.Url (str ("A")))).1 =
      crate_count twoCrateState :=
  ⟨(claim_C1_theorem.1 0 removalEnv twoCrateState (.Url (str ("A")))
      (by decide)).1,
   (claim_C1_theorem.1 0 removalEnv twoCrateState (.Url (str ("A")))
      (by decide)).2.2.2.2.2,
   claim_C1_theorem.2 1 0 removalEnv twoCrateState twoCrateState (str ("A"))
      (.mk (str ("A")) 0 []) (by rfl)⟩

/-! ## Claim C8 -/

/-- C8: for Scenario 1's crate, `extract_root_metadata` yields the name
`My Data`, but the manifest entry that `add_from_source` actually stores is
`CrateEntry::new(crate_id)` with `name = None` — lib.rs hands
`Manifest::add_crate` a bare crate id and never calls
`extract_root_metadata`, so the claimed population of the entry (and the
listed name `My Data`) never happens. -/
theorem claim_C8_theorem :
    (extract_root_metadata scenario1Graph).name = some (str ("My Data")) ∧
    (addFromSource 3 scenario1Env emptyState (.Directory (str ("d")))).2 =
      .ok (.mk (str ("01ULID/d")) 2 []) ∧
    ((addFromSource 3 scenario1Env emptyState
        (.Directory (str ("d")))).1.manifest.getEntry (str ("01ULID/d"))).map
      CrateEntry.name = some none ∧
    some (none : Option Str) ≠ some (some (str ("My Data"))) :=
  ⟨by decide, by rfl, by rfl, by decide⟩

end RocrateIndexer
